import Mathlib

/-
Verification of the directive interceptor chain builder of graphql-processor.

The embedding translates `src/graphql-directives.mjs` and the wiring part of
`src/index.mts`.  Field resolvers and directive handlers are modelled as
instrumented functions: each invocation appends an `Invocation` record (the
handler's directive name together with the context value it received) to a
log, so that invocation order and context threading are observable.  A
directive handler's runtime behaviour is one of: call the continuation and
post-process its value (`callThen`), return a value without calling the
continuation (`shortCircuit`), or throw (`throwErr`); JavaScript exceptions
and promise rejections are both modelled by `Except.error`, and the
async/await normalisation (which only changes synchrony, not observable
values) is the identity in this embedding.  Errors thrown while the chain is
being composed (by `getDirectiveInfo`) live in the outer
`Except DirectiveError` layer, so a composition error by construction carries
no invocation log: no handler has run.
-/

namespace GraphQLProcessor

/-- The two directive attachment locations the system supports
(`DirectiveLocation.FIELD_DEFINITION` for declaration-site,
`DirectiveLocation.FIELD` for usage-site), from `graphql/language`. -/
inductive DirectiveLocation where
  | FIELD_DEFINITION
  | FIELD
deriving DecidableEq, Repr

/-- A directive occurrence in the AST: its name and its (already
variable-resolved) argument assignment.  Argument coercion is delegated to
the external engine, so arguments are carried as an uninterpreted name/value
list. -/
structure DirectiveNode where
  name : String
  args : List (String × String)
deriving DecidableEq, Repr

/-- A directive declaration from the schema's directive-definition section:
its name and the set of locations it may be attached to. -/
structure DirectiveDecl where
  name : String
  locations : List DirectiveLocation
deriving DecidableEq, Repr

/-- The schema's directive-definition section, looked up by
`Schema.getDirective`. -/
abbrev SchemaDirectives := List DirectiveDecl

/-- Models `schema.getDirective(name)`. -/
def getDirective (schema : SchemaDirectives) (name : String) : Option DirectiveDecl :=
  schema.find? (fun d => d.name == name)

/-- One recorded handler (or base resolver) invocation: the name it is
registered under and the context value passed to it. -/
structure Invocation (Ctx : Type) where
  name : String
  ctx : Ctx
deriving DecidableEq, Repr

/-- An instrumented resolver: given the shared context and the invocation log
so far, it produces the field outcome (value or thrown error) and the
extended log. -/
abbrev Resolver (E V Ctx : Type) := Ctx → List (Invocation Ctx) → Except E V × List (Invocation Ctx)

/-- Runtime behaviour of a directive handler once invoked: it either calls
its zero-argument continuation and post-processes the continuation's value
(possibly throwing), or returns a value without calling the continuation, or
throws immediately. -/
inductive Behavior (E V : Type) where
  | callThen (post : V → Except E V)
  | shortCircuit (v : V)
  | throwErr (e : E)

/-- A registered directive handler: it receives the directive's resolved
arguments and exhibits a `Behavior`. -/
abbrev DirHandler (E V : Type) := List (String × String) → Behavior E V

/-- The directive table passed to `addDirectiveResolveFunctionsToSchema`:
directive name to handler. -/
abbrev ResolverMap (E V : Type) := List (String × DirHandler E V)

/-- Models `resolverMap[name]` (a JS object property read). -/
def lookupHandler (resolverMap : ResolverMap E V) (name : String) : Option (DirHandler E V) :=
  (resolverMap.find? (fun p => p.1 == name)).map (fun p => p.2)

/-- The three structural discovery failures thrown by `getDirectiveInfo`. -/
inductive DirectiveError where
  | undeclaredDirective (name : String)
  | invalidDirectiveLocation (name : String) (location : DirectiveLocation)
  | missingDirectiveHandler (name : String)
deriving DecidableEq, Repr

/-- Models `getDirectiveValues(Directive, { directives: [directive] },
variables)` from `graphql/execution`: an external collaborator that resolves
the usage's argument values; in this embedding the usage already carries the
resolved values. -/
def getDirectiveValues (_Directive : DirectiveDecl) (directive : DirectiveNode) :
    List (String × String) :=
  directive.args

/-- What `getDirectiveInfo` returns on success: the directive's resolved
arguments and the registered handler. -/
structure DirectiveInfo (E V : Type) where
  args : List (String × String)
  resolver : DirHandler E V

/-- Translation of `getDirectiveInfo` (graphql-directives.mjs lines 43-71):
undeclared directive, then wrong location, then missing handler, else the
handler with the directive's resolved arguments. -/
def getDirectiveInfo (directive : DirectiveNode) (resolverMap : ResolverMap E V)
    (schema : SchemaDirectives) (location : DirectiveLocation) :
    Except DirectiveError (DirectiveInfo E V) :=
  match getDirective schema directive.name with
  | none => .error (.undeclaredDirective directive.name)
  | some Directive =>
      if Directive.locations.contains location then
        match lookupHandler resolverMap directive.name with
        | none => .error (.missingDirectiveHandler directive.name)
        | some resolver => .ok ⟨getDirectiveValues Directive directive, resolver⟩
      else .error (.invalidDirectiveLocation directive.name location)

/-- Translation of `BUILT_IN_DIRECTIVES` (line 30). -/
def BUILT_IN_DIRECTIVES : List String := ["deprecated", "skip", "include"]

/-- Translation of `filterCustomDirectives` (lines 73-75). -/
def filterCustomDirectives (directives : List DirectiveNode) : List DirectiveNode :=
  directives.filter (fun directive => !(BUILT_IN_DIRECTIVES.contains directive.name))

/-- A schema field as the chain builder sees it: its (possibly installed)
resolver and the directives on its AST declaration node
(`field.astNode.directives`). -/
structure Field (E V Ctx : Type) where
  resolve : Option (Resolver E V Ctx)
  astNodeDirectives : List DirectiveNode

/-- Translation of `getFieldResolver` (lines 32-35): `field.resolve` with the
engine's `defaultFieldResolver` as fallback (the `.bind(field)` only fixes
the JS `this` and is invisible here). -/
def getFieldResolver (defaultFieldResolver : Resolver E V Ctx) (field : Field E V Ctx) :
    Resolver E V Ctx :=
  match field.resolve with
  | some resolver => resolver
  | none => defaultFieldResolver

/-- Translation of `createAsyncResolver` (lines 37-41): wraps the field's
resolver in an async function; awaiting is observationally the identity in
this embedding. -/
def createAsyncResolver (defaultFieldResolver : Resolver E V Ctx) (field : Field E V Ctx) :
    Resolver E V Ctx :=
  getFieldResolver defaultFieldResolver field

/-- The wrapper closure built at lines 87-94 and 112-120: invoke the
directive's handler, handing it a continuation that invokes the inner
resolver with the same `(source, args, context, info)`.  The handler's
invocation is recorded (name and received context); a `callThen` handler's
continuation result is awaited, so a rejection from inside propagates
through unchanged. -/
def runHandler (name : String) (b : Behavior E V) (k : Resolver E V Ctx) : Resolver E V Ctx :=
  fun ctx log =>
    match b with
    | .shortCircuit v => (.ok v, log ++ [⟨name, ctx⟩])
    | .throwErr e => (.error e, log ++ [⟨name, ctx⟩])
    | .callThen post =>
        match k ctx (log ++ [⟨name, ctx⟩]) with
        | (.ok v, log2) => (post v, log2)
        | (.error e, log2) => (.error e, log2)

/-- The `directives.reduce((recursiveResolver, directive) => ...)` fold shared
by lines 80-95 and 104-121: for each directive in source order, discover it
with `getDirectiveInfo` (throwing aborts the fold) and wrap the accumulated
resolver with its handler, so the last directive of the list ends up
outermost. -/
def directiveFold (resolverMap : ResolverMap E V) (schema : SchemaDirectives)
    (location : DirectiveLocation) :
    List DirectiveNode → Resolver E V Ctx → Except DirectiveError (Resolver E V Ctx)
  | [], recursiveResolver => .ok recursiveResolver
  | directive :: rest, recursiveResolver =>
      match getDirectiveInfo directive resolverMap schema location with
      | .error e => .error e
      | .ok directiveInfo =>
          directiveFold resolverMap schema location rest
            (runHandler directive.name (directiveInfo.resolver directiveInfo.args)
              recursiveResolver)

/-- Translation of `createFieldExecutionResolver` (lines 77-96): compose the
declaration-site chain over the field's own resolver; with no custom
directives the field's resolver is returned untouched. -/
def createFieldExecutionResolver (defaultFieldResolver : Resolver E V Ctx)
    (field : Field E V Ctx) (resolverMap : ResolverMap E V) (schema : SchemaDirectives) :
    Except DirectiveError (Resolver E V Ctx) :=
  if (filterCustomDirectives field.astNodeDirectives).isEmpty then
    .ok (getFieldResolver defaultFieldResolver field)
  else
    directiveFold resolverMap schema .FIELD_DEFINITION
      (filterCustomDirectives field.astNodeDirectives)
      (createAsyncResolver defaultFieldResolver field)

/-- One entry of `info.fieldNodes`: a field node of the query document with
the directives attached at that usage site. -/
structure FieldNode where
  directives : List DirectiveNode
deriving DecidableEq, Repr

/-- Translation of `createFieldResolver` (lines 98-125): capture the field's
(already declaration-site-composed) resolver, and per invocation read the
usage-site directives of `info.fieldNodes[0]`, composing them on top; with no
custom usage-site directives the captured resolver runs directly.  The
function of `info.fieldNodes` returned here is the per-query part: a
composition error is thrown at query time before any handler runs. -/
def createFieldResolver (defaultFieldResolver : Resolver E V Ctx) (field : Field E V Ctx)
    (resolverMap : ResolverMap E V) (schema : SchemaDirectives) :
    List FieldNode → Except DirectiveError (Resolver E V Ctx) :=
  fun fieldNodes =>
    if (filterCustomDirectives (fieldNodes.headD ⟨[]⟩).directives).isEmpty then
      .ok (getFieldResolver defaultFieldResolver field)
    else
      directiveFold resolverMap schema .FIELD
        (filterCustomDirectives (fieldNodes.headD ⟨[]⟩).directives)
        (createAsyncResolver defaultFieldResolver field)

/-- The per-field body of `addDirectiveResolveFunctionsToSchema` (lines
138-141): install the declaration-site composed resolver on the field, then
wrap it with the usage-site composer, which captures the updated field. -/
def addDirectiveResolversToField (defaultFieldResolver : Resolver E V Ctx)
    (field : Field E V Ctx) (resolverMap : ResolverMap E V) (schema : SchemaDirectives) :
    Except DirectiveError (List FieldNode → Except DirectiveError (Resolver E V Ctx)) :=
  match createFieldExecutionResolver defaultFieldResolver field resolverMap schema with
  | .error e => .error e
  | .ok execResolver =>
      .ok (createFieldResolver defaultFieldResolver ⟨some execResolver, field.astNodeDirectives⟩
        resolverMap schema)

/-- Translation of `addDirectiveResolveFunctionsToSchema` (lines 127-142)
over the schema's object-type fields: the `forEachField` loop installs both
resolver tiers on every field; a thrown discovery error aborts the loop and
the whole wiring. -/
def addDirectiveResolveFunctionsToSchema (defaultFieldResolver : Resolver E V Ctx)
    (resolverMap : ResolverMap E V) (schema : SchemaDirectives) :
    List (Field E V Ctx) →
      Except DirectiveError (List (List FieldNode → Except DirectiveError (Resolver E V Ctx)))
  | [] => .ok []
  | field :: rest =>
      match addDirectiveResolversToField defaultFieldResolver field resolverMap schema with
      | .error e => .error e
      | .ok wired =>
          match addDirectiveResolveFunctionsToSchema defaultFieldResolver resolverMap schema rest with
          | .error e => .error e
          | .ok wiredRest => .ok (wired :: wiredRest)

/-- An instrumented base resolver: records its invocation under `name` with
the received context and produces `f ctx`. -/
def instrumentedResolver (name : String) (f : Ctx → Except E V) : Resolver E V Ctx :=
  fun ctx log => (f ctx, log ++ [⟨name, ctx⟩])

/-- The closure graph the fold builds, as data: wrap `base` with the named
behaviours of `hs` in list order, so the last element of `hs` is outermost. -/
def composeChain (hs : List (String × Behavior E V)) (base : Resolver E V Ctx) :
    Resolver E V Ctx :=
  hs.foldl (fun recursiveResolver h => runHandler h.1 h.2 recursiveResolver) base

/-- Post-process an outcome through the continuation post-processors of a
list of `callThen` handlers, innermost first; an error passes through
untouched. -/
def applyPosts (ps : List (V → Except E V)) (r : Except E V) : Except E V :=
  ps.foldl (fun acc p => acc.bind p) r

/-- Discovery succeeds for `d` and the registered handler, applied to the
directive's resolved arguments, exhibits behaviour `b`. -/
def resolvesTo (resolverMap : ResolverMap E V) (schema : SchemaDirectives)
    (location : DirectiveLocation) (d : DirectiveNode) (b : Behavior E V) : Prop :=
  (getDirectiveInfo d resolverMap schema location).map (fun i => i.resolver i.args) = .ok b

/-- A resolver only ever appends to the invocation log, and every appended
record carries exactly the context the resolver itself was invoked with. -/
def CtxFaithful (r : Resolver E V Ctx) : Prop :=
  ∀ ctx log, ∃ ext, (r ctx log).2 = log ++ ext ∧ ∀ inv ∈ ext, inv.ctx = ctx

/-- Behaviour assignment for reasoning about a chain split around one
distinguished directive `dj`: directives of the `pre` segment keep their
given behaviours, `dj` gets `bj`, and everything else calls through. -/
def splitBehavior (pre : List DirectiveNode) (dj : DirectiveNode) (bj : Behavior E V)
    (Bpre : DirectiveNode → Behavior E V) (P : DirectiveNode → V → Except E V)
    (d : DirectiveNode) : Behavior E V :=
  if d ∈ pre then Bpre d else if d = dj then bj else .callThen (P d)

/-- A field of a built schema, with its installable resolver slot
(`fields[fieldName].resolve`). -/
structure SchemaField (β : Type) where
  name : String
  resolve : Option β
deriving DecidableEq, Repr

/-- A named type of a built schema.  `hasFields` records whether the type
object bears a `getFields` method: object and interface types do, scalar-like
types do not. -/
structure SchemaType (β : Type) where
  name : String
  hasFields : Bool
  fields : List (SchemaField β)
deriving DecidableEq, Repr

/-- A built schema's type map. -/
abbrev SchemaModel (β : Type) := List (SchemaType β)

/-- Models `schema.getType(typeName)`: `undefined` when no type of that name
exists. -/
def getType (schema : SchemaModel β) (typeName : String) : Option (SchemaType β) :=
  schema.find? (fun t => t.name == typeName)

/-- The JavaScript `TypeError`s raised by `type.getFields()` when `type` is
`undefined` or has no `getFields` method. -/
inductive WiringError where
  | typeErrorUndefined (typeName : String)
  | typeErrorNoGetFields (typeName : String)
deriving DecidableEq, Repr

/-- The inner loop of `buildSchemaWithResolvers` (index.mts lines 17-21):
assign each registered function to the schema field of the same name; a name
that is not among the type's fields is skipped silently. -/
def installFieldResolvers : List (SchemaField β) → List (String × β) → List (SchemaField β)
  | fields, [] => fields
  | fields, entry :: restMap =>
      installFieldResolvers
        (fields.map (fun f => if f.name == entry.1 then ⟨f.name, some entry.2⟩ else f))
        restMap

/-- Apply `installFieldResolvers` to the type named `typeName`. -/
def installTypeResolvers (schema : SchemaModel β) (typeName : String)
    (fieldMap : List (String × β)) : SchemaModel β :=
  schema.map (fun t =>
    if t.name == typeName then ⟨t.name, t.hasFields, installFieldResolvers t.fields fieldMap⟩
    else t)

/-- Translation of the resolver-installation loop of `buildSchemaWithResolvers`
(index.mts lines 11-27): for each resolver-table entry, `schema.getType`
reads the type (a missing name yields `undefined`, and the unconditional
`type.getFields()` then throws a `TypeError`; so does a type object without a
`getFields` method), after which registered functions are assigned to the
matching fields, unknown field names being skipped silently. -/
def buildSchemaWithResolvers (schema : SchemaModel β) :
    List (String × List (String × β)) → Except WiringError (SchemaModel β)
  | [] => .ok schema
  | (typeName, fieldMap) :: rest =>
      match getType schema typeName with
      | none => .error (.typeErrorUndefined typeName)
      | some t =>
          if t.hasFields then
            buildSchemaWithResolvers (installTypeResolvers schema typeName fieldMap) rest
          else .error (.typeErrorNoGetFields typeName)

/-- Modelled from the spec: `registerResolver` of the Handler Registry
(spec 4.1).  The source keeps the registry as a plain JavaScript object and
registration is property assignment (`resolverMap[typeName][fieldName] = fn`),
so registering replaces any earlier entry under the same key. -/
def registerResolver (m : List ((String × String) × β)) (typeName fieldName : String)
    (fn : β) : List ((String × String) × β) :=
  ((typeName, fieldName), fn) :: m.filter (fun e => !(e.1 == (typeName, fieldName)))

/-- Registry lookup by `(typeName, fieldName)` key. -/
def lookupRegistered (m : List ((String × String) × β)) (typeName fieldName : String) :
    Option β :=
  (m.find? (fun e => e.1 == (typeName, fieldName))).map (fun e => e.2)

/-- The `upper` handler's transformation (JS `value.toUpperCase()`), written
character-wise so it evaluates by kernel reduction. -/
def toUpperString (s : String) : String :=
  ⟨s.data.map Char.toUpper⟩

/-- Example default resolver for the concrete witnesses. -/
def exDefault : Resolver String String Nat :=
  instrumentedResolver "default" (fun _ => .ok "dflt")

/-- Example schema directive declarations for the concrete witnesses. -/
def exSchema : SchemaDirectives :=
  [⟨"a", [.FIELD_DEFINITION]⟩, ⟨"b", [.FIELD_DEFINITION]⟩,
   ⟨"whatever", [.FIELD_DEFINITION]⟩, ⟨"role", [.FIELD_DEFINITION]⟩,
   ⟨"upper", [.FIELD]⟩, ⟨"boom", [.FIELD_DEFINITION]⟩, ⟨"stop", [.FIELD_DEFINITION]⟩,
   ⟨"nohandler", [.FIELD_DEFINITION]⟩]

/-- Example directive table: `a`, `b`, `whatever` and `role` call through
unchanged, `upper` uppercases the continuation's value, `boom` throws and
`stop` short-circuits. -/
def exResolverMap : ResolverMap String String :=
  [("a", fun _ => .callThen Except.ok), ("b", fun _ => .callThen Except.ok),
   ("whatever", fun _ => .callThen Except.ok), ("role", fun _ => .callThen Except.ok),
   ("upper", fun _ => .callThen (fun v => .ok (toUpperString v))),
   ("boom", fun _ => .throwErr "boom"), ("stop", fun _ => .shortCircuit "X")]

/-- Example field declared with `@a @b`. -/
def exField : Field String String Nat :=
  ⟨some (instrumentedResolver "base" (fun _ => .ok "v")), [⟨"a", []⟩, ⟨"b", []⟩]⟩

/-- The spec's scenario field `secret: String! @whatever @role(role:"ADMIN")`
whose base resolver yields `"123456789abcd"`. -/
def secretField : Field String String Nat :=
  ⟨some (instrumentedResolver "base" (fun _ => .ok "123456789abcd")),
   [⟨"whatever", []⟩, ⟨"role", [("role", "ADMIN")]⟩]⟩

/-- The spec's scenario usage site `secret @upper`. -/
def upperNode : FieldNode := ⟨[⟨"upper", []⟩]⟩

/-- Example field declared with `@a @stop @b` (`stop` short-circuits). -/
def stopField : Field String String Nat :=
  ⟨some (instrumentedResolver "base" (fun _ => .ok "v")),
   [⟨"a", []⟩, ⟨"stop", []⟩, ⟨"b", []⟩]⟩

/-- Example field declared with `@a @boom @b` (`boom` throws). -/
def boomField : Field String String Nat :=
  ⟨some (instrumentedResolver "base" (fun _ => .ok "v")),
   [⟨"a", []⟩, ⟨"boom", []⟩, ⟨"b", []⟩]⟩

/-- Example field carrying only built-in directives. -/
def builtinField : Field String String Nat :=
  ⟨some (instrumentedResolver "base" (fun _ => .ok "v")),
   [⟨"deprecated", []⟩, ⟨"include", []⟩]⟩

/-- Example field with an undeclared directive `@nope`. -/
def nopeField : Field String String Nat :=
  ⟨some (instrumentedResolver "base" (fun _ => .ok "v")), [⟨"nope", []⟩]⟩

/-- Example usage site carrying an undeclared directive `@nope`. -/
def nopeNode : FieldNode := ⟨[⟨"nope", []⟩]⟩

/-- Example built schema for the wiring model: an object type `Person` with
one field and a scalar-like type `Void`. -/
def exSchemaModel : SchemaModel Nat :=
  [⟨"Person", true, [⟨"name", none⟩]⟩, ⟨"Void", false, []⟩]

/-- Running a `callThen` wrapper: the handler is logged, the continuation runs
on the extended log, and the continuation's outcome is fed through `post`
(errors pass through unchanged). -/
theorem runHandler_callThen_eq (name : String) (post : V → Except E V)
    (k : Resolver E V Ctx) (ctx : Ctx) (log : List (Invocation Ctx)) :
    runHandler name (.callThen post) k ctx log =
      ((k ctx (log ++ [⟨name, ctx⟩])).1.bind post, (k ctx (log ++ [⟨name, ctx⟩])).2) := by
  unfold runHandler
  rcases h : k ctx (log ++ [⟨name, ctx⟩]) with ⟨res, log2⟩
  rw [h]
  cases res <;> rfl

/-- `applyPosts` over a cons is post-processing the head first. -/
theorem applyPosts_cons (p : V → Except E V) (ps : List (V → Except E V)) (r : Except E V) :
    applyPosts (p :: ps) r = applyPosts ps (r.bind p) := rfl

/-- An error outcome passes through every post-processor unchanged. -/
theorem applyPosts_error (ps : List (V → Except E V)) (e : E) :
    applyPosts ps (.error e) = (.error e : Except E V) := by
  induction ps with
  | nil => rfl
  | cons p ps ih => rw [applyPosts_cons]; exact ih

/-- Folding one more handler wraps the accumulated resolver. -/
theorem composeChain_cons (h : String × Behavior E V) (hs : List (String × Behavior E V))
    (base : Resolver E V Ctx) :
    composeChain (h :: hs) base = composeChain hs (runHandler h.1 h.2 base) := rfl

/-- Splitting a chain: the right part wraps the chain of the left part. -/
theorem composeChain_append (hs ts : List (String × Behavior E V)) (base : Resolver E V Ctx) :
    composeChain (hs ++ ts) base = composeChain ts (composeChain hs base) :=
  List.foldl_append _ _ _ _

/-- Running a chain of handlers that all call their continuation: the
handlers are logged outermost first (last of the list first), then the base
resolver runs, and its outcome is fed through the post-processors innermost
first. -/
theorem composeChain_callThen_run (hs : List (String × Behavior E V))
    (ps : List (V → Except E V)) (hps : hs.map Prod.snd = ps.map Behavior.callThen)
    (base : Resolver E V Ctx) (ctx : Ctx) (log : List (Invocation Ctx)) :
    composeChain hs base ctx log =
      (applyPosts ps
        (base ctx (log ++ (hs.map (fun h => Invocation.mk h.1 ctx)).reverse)).1,
       (base ctx (log ++ (hs.map (fun h => Invocation.mk h.1 ctx)).reverse)).2) := by
  induction hs generalizing ps base log with
  | nil =>
      cases ps with
      | nil => simp [composeChain, applyPosts]
      | cons p ps' => simp at hps
  | cons h hs' ih =>
      cases ps with
      | nil => simp at hps
      | cons p ps' =>
          simp only [List.map_cons, List.cons.injEq] at hps
          obtain ⟨hhead, htail⟩ := hps
          rw [composeChain_cons, ih ps' htail, hhead,
            runHandler_callThen_eq, applyPosts_cons]
          simp [List.append_assoc]

/-- Unpack `resolvesTo` into the successful discovery it asserts. -/
theorem resolvesTo_getInfo {rm : ResolverMap E V} {schema : SchemaDirectives}
    {loc : DirectiveLocation} {d : DirectiveNode} {b : Behavior E V}
    (h : resolvesTo rm schema loc d b) :
    ∃ i, getDirectiveInfo d rm schema loc = .ok i ∧ i.resolver i.args = b := by
  unfold resolvesTo at h
  cases hinfo : getDirectiveInfo d rm schema loc with
  | error e => rw [hinfo] at h; simp [Except.map] at h
  | ok i =>
      rw [hinfo] at h
      simp only [Except.map, Except.ok.injEq] at h
      exact ⟨i, rfl, h⟩

/-- Discovery is a function of the directive, so the behaviour it resolves to
is unique. -/
theorem resolvesTo_unique {rm : ResolverMap E V} {schema : SchemaDirectives}
    {loc : DirectiveLocation} {d : DirectiveNode} {b b' : Behavior E V}
    (h : resolvesTo rm schema loc d b) (h' : resolvesTo rm schema loc d b') : b = b' := by
  unfold resolvesTo at h h'
  rw [h] at h'
  exact (Except.ok.injEq _ _).mp h'

/-- Unfolding the fold at a directive that discovers successfully. -/
theorem directiveFold_cons_ok {rm : ResolverMap E V} {schema : SchemaDirectives}
    {loc : DirectiveLocation} {d : DirectiveNode} {i : DirectiveInfo E V}
    (rest : List DirectiveNode) (base : Resolver E V Ctx)
    (hinfo : getDirectiveInfo d rm schema loc = .ok i) :
    directiveFold rm schema loc (d :: rest) base =
      directiveFold rm schema loc rest (runHandler d.name (i.resolver i.args) base) := by
  simp [directiveFold, hinfo]

/-- Unfolding the fold at a directive whose discovery throws. -/
theorem directiveFold_cons_error {rm : ResolverMap E V} {schema : SchemaDirectives}
    {loc : DirectiveLocation} {d : DirectiveNode} {e : DirectiveError}
    (rest : List DirectiveNode) (base : Resolver E V Ctx)
    (hinfo : getDirectiveInfo d rm schema loc = .error e) :
    directiveFold rm schema loc (d :: rest) base = .error e := by
  simp [directiveFold, hinfo]

/-- When every directive of the list discovers successfully, the fold of the
source's `reduce` returns the closure chain of the discovered behaviours over
the base resolver. -/
theorem directiveFold_ok (rm : ResolverMap E V) (schema : SchemaDirectives)
    (loc : DirectiveLocation) (B : DirectiveNode → Behavior E V) :
    ∀ ds : List DirectiveNode, (∀ d ∈ ds, resolvesTo rm schema loc d (B d)) →
      ∀ base : Resolver E V Ctx,
        directiveFold rm schema loc ds base =
          .ok (composeChain (ds.map (fun d => (d.name, B d))) base) := by
  intro ds
  induction ds with
  | nil => intro _ _; rfl
  | cons d rest ih =>
      intro hB base
      obtain ⟨i, hinfo, hbeh⟩ := resolvesTo_getInfo (hB d (by simp))
      rw [directiveFold_cons_ok rest base hinfo, hbeh]
      exact ih (fun d' hd' => hB d' (List.mem_cons_of_mem d hd'))
        (runHandler d.name (B d) base)

/-- When some directive of the list fails discovery, the fold throws. -/
theorem directiveFold_error (rm : ResolverMap E V) (schema : SchemaDirectives)
    (loc : DirectiveLocation) :
    ∀ ds : List DirectiveNode,
      (∃ d ∈ ds, ∃ e, getDirectiveInfo d rm schema loc = .error e) →
      ∀ base : Resolver E V Ctx, ∃ e', directiveFold rm schema loc ds base = .error e' := by
  intro ds
  induction ds with
  | nil => rintro ⟨d, hd, _⟩; exact absurd hd (List.not_mem_nil d)
  | cons d rest ih =>
      rintro ⟨d', hd', e, herr⟩ base
      cases hinfo : getDirectiveInfo d rm schema loc with
      | error e0 => exact ⟨e0, by simp [directiveFold, hinfo]⟩
      | ok i =>
          rcases List.mem_cons.mp hd' with rfl | hmem
          · rw [herr] at hinfo; exact absurd hinfo (by simp)
          · obtain ⟨e', hfold⟩ :=
              ih ⟨d', hmem, e, herr⟩ (runHandler d.name (i.resolver i.args) base)
            exact ⟨e', by simp [directiveFold, hinfo, hfold]⟩

/-- An instrumented resolver appends exactly one record, carrying the context
it received. -/
theorem ctxFaithful_instrumentedResolver (name : String) (f : Ctx → Except E V) :
    CtxFaithful (instrumentedResolver name f : Resolver E V Ctx) := by
  intro ctx log
  exact ⟨[⟨name, ctx⟩], rfl, by simp⟩

/-- Wrapping with a handler preserves context-faithfulness: the wrapper logs
the context it received and hands the very same context to the continuation. -/
theorem ctxFaithful_runHandler (name : String) (b : Behavior E V) {k : Resolver E V Ctx}
    (hk : CtxFaithful k) : CtxFaithful (runHandler name b k) := by
  intro ctx log
  cases b with
  | shortCircuit v => exact ⟨[⟨name, ctx⟩], rfl, by simp⟩
  | throwErr e => exact ⟨[⟨name, ctx⟩], rfl, by simp⟩
  | callThen post =>
      obtain ⟨ext, hlog, hext⟩ := hk ctx (log ++ [⟨name, ctx⟩])
      refine ⟨⟨name, ctx⟩ :: ext, ?_, ?_⟩
      · rw [runHandler_callThen_eq]
        rw [hlog]
        simp
      · intro inv hinv
        rcases List.mem_cons.mp hinv with rfl | hmem
        · rfl
        · exact hext inv hmem

/-- The fold only ever wraps the base with handlers, so a successful fold
preserves context-faithfulness of the base. -/
theorem ctxFaithful_directiveFold (rm : ResolverMap E V) (schema : SchemaDirectives)
    (loc : DirectiveLocation) :
    ∀ (ds : List DirectiveNode) (base r : Resolver E V Ctx), CtxFaithful base →
      directiveFold rm schema loc ds base = .ok r → CtxFaithful r := by
  intro ds
  induction ds with
  | nil =>
      intro base r hbase hfold
      injection hfold with h
      exact h ▸ hbase
  | cons d rest ih =>
      intro base r hbase hfold
      cases hinfo : getDirectiveInfo d rm schema loc with
      | error e => simp [directiveFold, hinfo] at hfold
      | ok i =>
          simp only [directiveFold, hinfo] at hfold
          exact ih _ r (ctxFaithful_runHandler d.name (i.resolver i.args) hbase) hfold

/-- A field with an installed resolver resolves through it. -/
theorem getFieldResolver_some {dflt res : Resolver E V Ctx} {field : Field E V Ctx}
    (h : field.resolve = some res) : getFieldResolver dflt field = res := by
  unfold getFieldResolver
  rw [h]

/-- `createFieldExecutionResolver` under successful discovery: the
declaration-site chain is the closure chain of the discovered behaviours, in
source order, over the field's own resolver (the no-directive branch returns
that resolver itself, which is the empty chain). -/
theorem createFieldExecutionResolver_ok_chain (dflt : Resolver E V Ctx)
    (field : Field E V Ctx) (rm : ResolverMap E V) (schema : SchemaDirectives)
    (B : DirectiveNode → Behavior E V)
    (hB : ∀ d ∈ filterCustomDirectives field.astNodeDirectives,
      resolvesTo rm schema .FIELD_DEFINITION d (B d)) :
    createFieldExecutionResolver dflt field rm schema =
      .ok (composeChain ((filterCustomDirectives field.astNodeDirectives).map
        (fun d => (d.name, B d))) (getFieldResolver dflt field)) := by
  unfold createFieldExecutionResolver
  cases hds : filterCustomDirectives field.astNodeDirectives with
  | nil => simp [composeChain]
  | cons d rest =>
      have hB' : ∀ d' ∈ d :: rest, resolvesTo rm schema .FIELD_DEFINITION d' (B d') :=
        hds ▸ hB
      have h1 := directiveFold_ok rm schema DirectiveLocation.FIELD_DEFINITION B (d :: rest)
        hB' (createAsyncResolver dflt field)
      simp only [List.isEmpty_cons, Bool.false_eq_true, if_false, h1]
      rfl

/-- `createFieldResolver` under successful usage-site discovery on the first
field node: the per-query chain is the closure chain of the discovered
behaviours, in source order, over the field's captured resolver. -/
theorem createFieldResolver_ok_chain (dflt : Resolver E V Ctx) (field : Field E V Ctx)
    (rm : ResolverMap E V) (schema : SchemaDirectives) (node : FieldNode)
    (rest : List FieldNode) (B : DirectiveNode → Behavior E V)
    (hB : ∀ d ∈ filterCustomDirectives node.directives, resolvesTo rm schema .FIELD d (B d)) :
    createFieldResolver dflt field rm schema (node :: rest) =
      .ok (composeChain ((filterCustomDirectives node.directives).map
        (fun d => (d.name, B d))) (getFieldResolver dflt field)) := by
  unfold createFieldResolver
  cases hds : filterCustomDirectives node.directives with
  | nil => simp [hds, composeChain]
  | cons d rest' =>
      have hB' : ∀ d' ∈ d :: rest', resolvesTo rm schema .FIELD d' (B d') := hds ▸ hB
      have h1 := directiveFold_ok rm schema DirectiveLocation.FIELD B (d :: rest')
        hB' (createAsyncResolver dflt field)
      simp only [List.headD_cons, hds, List.isEmpty_cons, Bool.false_eq_true, if_false, h1]
      rfl

/-- The two-tier installation under successful discovery at both sites: the
usage-site chain wraps the declaration-site chain, which wraps the field's
own resolver, so the whole invocation is one chain with the declaration-site
handlers innermost. -/
theorem addDirectiveResolversToField_ok_chain (dflt : Resolver E V Ctx)
    (field : Field E V Ctx) (rm : ResolverMap E V) (schema : SchemaDirectives)
    (node : FieldNode) (rest : List FieldNode) (Bd Bu : DirectiveNode → Behavior E V)
    (hBd : ∀ d ∈ filterCustomDirectives field.astNodeDirectives,
      resolvesTo rm schema .FIELD_DEFINITION d (Bd d))
    (hBu : ∀ d ∈ filterCustomDirectives node.directives, resolvesTo rm schema .FIELD d (Bu d)) :
    ∃ q, addDirectiveResolversToField dflt field rm schema = .ok q ∧
      q (node :: rest) = .ok (composeChain
        (((filterCustomDirectives field.astNodeDirectives).map (fun d => (d.name, Bd d))) ++
          ((filterCustomDirectives node.directives).map (fun d => (d.name, Bu d))))
        (getFieldResolver dflt field)) := by
  unfold addDirectiveResolversToField
  rw [createFieldExecutionResolver_ok_chain dflt field rm schema Bd hBd]
  refine ⟨_, rfl, ?_⟩
  rw [createFieldResolver_ok_chain dflt _ rm schema node rest Bu hBu,
    composeChain_append]
  rfl

/-- Running a chain of continuation-calling handlers over an instrumented
base resolver from an empty log. -/
theorem composeChain_callThen_instrumented (hs : List (String × Behavior E V))
    (ps : List (V → Except E V)) (hps : hs.map Prod.snd = ps.map Behavior.callThen)
    (bn : String) (fb : Ctx → Except E V) (ctx : Ctx) :
    composeChain hs (instrumentedResolver bn fb) ctx [] =
      (applyPosts ps (fb ctx),
       (hs.map (fun h => Invocation.mk h.1 ctx)).reverse ++ [⟨bn, ctx⟩]) := by
  rw [composeChain_callThen_run hs ps hps]
  simp [instrumentedResolver]

/-- C1: for a field with declaration-site directives `[d1, ..., dn]` whose
handlers all call their continuation, the composed resolver invokes the
handlers in the order `dn, ..., d1` and then the base resolver: the
last-declared directive is the outermost wrapper and the first-declared one
runs immediately before the base resolver. -/
theorem declaration_directives_invoke_last_first (dflt : Resolver E V Ctx)
    (field : Field E V Ctx) (rm : ResolverMap E V) (schema : SchemaDirectives)
    (bn : String) (fb : Ctx → Except E V) (ctx : Ctx)
    (P : DirectiveNode → V → Except E V)
    (hbase : field.resolve = some (instrumentedResolver bn fb))
    (hB : ∀ d ∈ filterCustomDirectives field.astNodeDirectives,
      resolvesTo rm schema .FIELD_DEFINITION d (.callThen (P d))) :
    ∃ r, createFieldExecutionResolver dflt field rm schema = .ok r ∧
      (r ctx []).2.map Invocation.name =
        ((filterCustomDirectives field.astNodeDirectives).map DirectiveNode.name).reverse
          ++ [bn] := by
  refine ⟨_, createFieldExecutionResolver_ok_chain dflt field rm schema
    (fun d => .callThen (P d)) hB, ?_⟩
  rw [getFieldResolver_some hbase]
  rw [composeChain_callThen_instrumented
    ((filterCustomDirectives field.astNodeDirectives).map (fun d => (d.name, .callThen (P d))))
    ((filterCustomDirectives field.astNodeDirectives).map P)
    (by simp [List.map_map]) bn fb ctx]
  simp [List.map_map, List.map_reverse]

/-- Concrete run for C1: a field declared `@a @b` with call-through handlers
logs `b`, then `a`, then the base resolver. -/
theorem declaration_directives_invoke_last_first_witness :
    ∃ r, createFieldExecutionResolver exDefault exField exResolverMap exSchema = .ok r ∧
      (r 0 []).2.map Invocation.name = ["b", "a", "base"] := by
  have hB : ∀ d ∈ filterCustomDirectives exField.astNodeDirectives,
      resolvesTo exResolverMap exSchema DirectiveLocation.FIELD_DEFINITION d
        (Behavior.callThen (Except.ok)) := by
    have hds : filterCustomDirectives exField.astNodeDirectives =
        [⟨"a", []⟩, ⟨"b", []⟩] := rfl
    rw [hds]
    intro d hd
    fin_cases hd <;> rfl
  obtain ⟨r, h1, h2⟩ := declaration_directives_invoke_last_first exDefault exField
    exResolverMap exSchema "base" (fun _ => Except.ok "v") 0 (fun _ => Except.ok) rfl hB
  exact ⟨r, h1, by rw [h2]; rfl⟩

/-- C2: with declaration-site and usage-site directives whose handlers all
call their continuation, every usage-site handler runs strictly before every
declaration-site handler, the base resolver runs last, and the chain's value
is the base value post-processed by the declaration-site handlers and then
the usage-site handlers. -/
theorem usage_directives_execute_outside_declaration_directives
    (dflt : Resolver E V Ctx) (field : Field E V Ctx) (rm : ResolverMap E V)
    (schema : SchemaDirectives) (bn : String) (fb : Ctx → Except E V) (ctx : Ctx)
    (node : FieldNode) (rest : List FieldNode) (Pd Pu : DirectiveNode → V → Except E V)
    (hbase : field.resolve = some (instrumentedResolver bn fb))
    (hBd : ∀ d ∈ filterCustomDirectives field.astNodeDirectives,
      resolvesTo rm schema .FIELD_DEFINITION d (.callThen (Pd d)))
    (hBu : ∀ d ∈ filterCustomDirectives node.directives,
      resolvesTo rm schema .FIELD d (.callThen (Pu d))) :
    ∃ q r, addDirectiveResolversToField dflt field rm schema = .ok q ∧
      q (node :: rest) = .ok r ∧
      (r ctx []).2.map Invocation.name =
        ((filterCustomDirectives node.directives).map DirectiveNode.name).reverse ++
          ((filterCustomDirectives field.astNodeDirectives).map DirectiveNode.name).reverse
          ++ [bn] ∧
      (r ctx []).1 = applyPosts ((filterCustomDirectives field.astNodeDirectives).map Pd ++
        (filterCustomDirectives node.directives).map Pu) (fb ctx) := by
  obtain ⟨q, hq, hrun⟩ := addDirectiveResolversToField_ok_chain dflt field rm schema node rest
    (fun d => .callThen (Pd d)) (fun d => .callThen (Pu d)) hBd hBu
  rw [getFieldResolver_some hbase] at hrun
  have hps : ((((filterCustomDirectives field.astNodeDirectives).map
          (fun d => (d.name, Behavior.callThen (Pd d)))) ++
        ((filterCustomDirectives node.directives).map
          (fun d => (d.name, Behavior.callThen (Pu d))))).map Prod.snd) =
      ((filterCustomDirectives field.astNodeDirectives).map Pd ++
        (filterCustomDirectives node.directives).map Pu).map Behavior.callThen := by
    simp [List.map_map, Function.comp_def]
  have hrc := composeChain_callThen_instrumented
    (((filterCustomDirectives field.astNodeDirectives).map
        (fun d => (d.name, Behavior.callThen (Pd d)))) ++
      ((filterCustomDirectives node.directives).map
        (fun d => (d.name, Behavior.callThen (Pu d)))))
    ((filterCustomDirectives field.astNodeDirectives).map Pd ++
      (filterCustomDirectives node.directives).map Pu)
    hps bn fb ctx
  refine ⟨q, _, hq, hrun, ?_, ?_⟩
  · rw [hrc]
    simp [List.map_map, List.map_reverse, List.reverse_append, List.append_assoc,
      Function.comp_def]
  · rw [hrc]

/-- Concrete run for C2, the spec's scenario: field
`secret: String! @whatever @role(role:"ADMIN")` queried as `secret @upper`
logs `upper, role, whatever`, then the base resolver, and turns the base
value `"123456789abcd"` into `"123456789ABCD"`. -/
theorem usage_directives_execute_outside_declaration_directives_witness :
    ∃ q r, addDirectiveResolversToField exDefault secretField exResolverMap exSchema = .ok q ∧
      q [upperNode] = .ok r ∧
      (r 0 []).2.map Invocation.name = ["upper", "role", "whatever", "base"] ∧
      (r 0 []).1 = Except.ok "123456789ABCD" := by
  have hBd : ∀ d ∈ filterCustomDirectives secretField.astNodeDirectives,
      resolvesTo exResolverMap exSchema DirectiveLocation.FIELD_DEFINITION d
        (Behavior.callThen (Except.ok)) := by
    have hds : filterCustomDirectives secretField.astNodeDirectives =
        [⟨"whatever", []⟩, ⟨"role", [("role", "ADMIN")]⟩] := rfl
    rw [hds]
    intro d hd
    fin_cases hd <;> rfl
  have hBu : ∀ d ∈ filterCustomDirectives upperNode.directives,
      resolvesTo exResolverMap exSchema DirectiveLocation.FIELD d
        (Behavior.callThen (fun v => Except.ok (toUpperString v))) := by
    have hds : filterCustomDirectives upperNode.directives = [⟨"upper", []⟩] := rfl
    rw [hds]
    intro d hd
    fin_cases hd
    rfl
  obtain ⟨q, r, h1, h2, h3, h4⟩ := usage_directives_execute_outside_declaration_directives
    exDefault secretField exResolverMap exSchema "base" (fun _ => Except.ok "123456789abcd")
    0 upperNode [] (fun _ => Except.ok) (fun _ v => Except.ok (toUpperString v)) rfl hBd hBu
  exact ⟨q, r, h1, h2, by rw [h3]; rfl, by rw [h4]; rfl⟩

/-- Running a chain split around a handler that terminates without invoking
its continuation (it short-circuits or throws): only the outer handlers and
the terminating handler itself appear in the log — the inner handlers and the
base resolver are never invoked — and the terminal outcome is fed through the
outer post-processors only. -/
theorem composeChain_split_run (A C : List (String × Behavior E V))
    (ps : List (V → Except E V)) (hC : C.map Prod.snd = ps.map Behavior.callThen)
    (nj : String) (bj : Behavior E V) (res : Except E V)
    (hterm : ∀ (k : Resolver E V Ctx) (ctx : Ctx) (log : List (Invocation Ctx)),
      runHandler nj bj k ctx log = (res, log ++ [⟨nj, ctx⟩]))
    (base : Resolver E V Ctx) (ctx : Ctx) :
    composeChain (A ++ (nj, bj) :: C) base ctx [] =
      (applyPosts ps res, (C.map (fun h => Invocation.mk h.1 ctx)).reverse ++ [⟨nj, ctx⟩]) := by
  rw [composeChain_append, composeChain_cons,
    composeChain_callThen_run C ps hC (runHandler nj bj (composeChain A base)) ctx [],
    hterm]
  simp

/-- `splitBehavior` on the `pre` segment. -/
theorem splitBehavior_mem_pre {pre : List DirectiveNode} {dj d : DirectiveNode}
    {bj : Behavior E V} {Bpre : DirectiveNode → Behavior E V}
    {P : DirectiveNode → V → Except E V} (h1 : d ∈ pre) :
    splitBehavior pre dj bj Bpre P d = Bpre d := by
  simp [splitBehavior, h1]

/-- `splitBehavior` at the distinguished directive when it is not in `pre`. -/
theorem splitBehavior_at_dj {pre : List DirectiveNode} {dj : DirectiveNode}
    {bj : Behavior E V} {Bpre : DirectiveNode → Behavior E V}
    {P : DirectiveNode → V → Except E V} (h1 : dj ∉ pre) :
    splitBehavior pre dj bj Bpre P dj = bj := by
  simp [splitBehavior, h1]

/-- `splitBehavior` away from `pre` and the distinguished directive. -/
theorem splitBehavior_other {pre : List DirectiveNode} {dj d : DirectiveNode}
    {bj : Behavior E V} {Bpre : DirectiveNode → Behavior E V}
    {P : DirectiveNode → V → Except E V} (h1 : d ∉ pre) (h2 : d ≠ dj) :
    splitBehavior pre dj bj Bpre P d = .callThen (P d) := by
  simp [splitBehavior, h1, h2]

/-- The declaration-site chain of a field whose directive list splits as
`pre ++ dj :: post`, where `dj`'s handler terminates without calling its
continuation and the `post` handlers call through: only the `post` handlers
(outermost first) and `dj` run, and `dj`'s outcome is post-processed by the
`post` handlers only. -/
theorem createFieldExecutionResolver_split_run (dflt : Resolver E V Ctx)
    (field : Field E V Ctx) (rm : ResolverMap E V) (schema : SchemaDirectives) (ctx : Ctx)
    (pre post : List DirectiveNode) (dj : DirectiveNode) (bj : Behavior E V)
    (res : Except E V) (Bpre : DirectiveNode → Behavior E V)
    (P : DirectiveNode → V → Except E V)
    (hsplit : filterCustomDirectives field.astNodeDirectives = pre ++ dj :: post)
    (hpre : ∀ d ∈ pre, resolvesTo rm schema .FIELD_DEFINITION d (Bpre d))
    (hj : resolvesTo rm schema .FIELD_DEFINITION dj bj)
    (hpost : ∀ d ∈ post, resolvesTo rm schema .FIELD_DEFINITION d (.callThen (P d)))
    (hterm : ∀ (k : Resolver E V Ctx) (ctx' : Ctx) (log : List (Invocation Ctx)),
      runHandler dj.name bj k ctx' log = (res, log ++ [⟨dj.name, ctx'⟩])) :
    ∃ r, createFieldExecutionResolver dflt field rm schema = .ok r ∧
      (r ctx []).2.map Invocation.name = (post.map DirectiveNode.name).reverse ++ [dj.name] ∧
      (r ctx []).1 = applyPosts (post.map P) res := by
  have hB : ∀ d ∈ filterCustomDirectives field.astNodeDirectives,
      resolvesTo rm schema .FIELD_DEFINITION d (splitBehavior pre dj bj Bpre P d) := by
    intro d hd
    rw [hsplit] at hd
    by_cases h1 : d ∈ pre
    · rw [splitBehavior_mem_pre h1]; exact hpre d h1
    · by_cases h2 : d = dj
      · subst h2; rw [splitBehavior_at_dj h1]; exact hj
      · have h3 : d ∈ post := by
          rcases List.mem_append.mp hd with h | h
          · exact absurd h h1
          · rcases List.mem_cons.mp h with h | h
            · exact absurd h h2
            · exact h
        rw [splitBehavior_other h1 h2]; exact hpost d h3
  have hchain := createFieldExecutionResolver_ok_chain dflt field rm schema
    (splitBehavior pre dj bj Bpre P) hB
  rw [hsplit] at hchain
  have hBdj : splitBehavior pre dj bj Bpre P dj = bj := by
    by_cases hmem : dj ∈ pre
    · rw [splitBehavior_mem_pre hmem]; exact resolvesTo_unique (hpre dj hmem) hj
    · exact splitBehavior_at_dj hmem
  have hCpost : post.map (fun d => (d.name, splitBehavior pre dj bj Bpre P d)) =
      post.map (fun d => (d.name, Behavior.callThen (P d))) := by
    apply List.map_congr_left
    intro d hd
    by_cases h1 : d ∈ pre
    · rw [splitBehavior_mem_pre h1, resolvesTo_unique (hpre d h1) (hpost d hd)]
    · by_cases h2 : d = dj
      · subst h2
        rw [splitBehavior_at_dj h1, resolvesTo_unique hj (hpost d hd)]
      · rw [splitBehavior_other h1 h2]
  rw [List.map_append, List.map_cons, hBdj, hCpost] at hchain
  have hrc := composeChain_split_run
    (pre.map (fun d => (d.name, splitBehavior pre dj bj Bpre P d)))
    (post.map (fun d => (d.name, Behavior.callThen (P d)))) (post.map P)
    (by simp [List.map_map, Function.comp_def]) dj.name bj res hterm
    (getFieldResolver dflt field) ctx
  refine ⟨_, hchain, ?_, ?_⟩
  · rw [hrc]
    simp [List.map_map, List.map_reverse, Function.comp_def]
  · rw [hrc]

/-- C3: if a directive handler returns a value without ever calling its
continuation, then no handler closer to the base resolver runs, the base
resolver does not run, and the chain's value is that handler's value, further
transformed only by the handlers outside it. -/
theorem short_circuit_suppresses_inner_handlers_and_base (dflt : Resolver E V Ctx)
    (field : Field E V Ctx) (rm : ResolverMap E V) (schema : SchemaDirectives) (ctx : Ctx)
    (pre post : List DirectiveNode) (dj : DirectiveNode) (v : V)
    (Bpre : DirectiveNode → Behavior E V) (P : DirectiveNode → V → Except E V)
    (hsplit : filterCustomDirectives field.astNodeDirectives = pre ++ dj :: post)
    (hpre : ∀ d ∈ pre, resolvesTo rm schema .FIELD_DEFINITION d (Bpre d))
    (hj : resolvesTo rm schema .FIELD_DEFINITION dj (.shortCircuit v))
    (hpost : ∀ d ∈ post, resolvesTo rm schema .FIELD_DEFINITION d (.callThen (P d))) :
    ∃ r, createFieldExecutionResolver dflt field rm schema = .ok r ∧
      (r ctx []).2.map Invocation.name = (post.map DirectiveNode.name).reverse ++ [dj.name] ∧
      (r ctx []).1 = applyPosts (post.map P) (.ok v) := by
  exact createFieldExecutionResolver_split_run dflt field rm schema ctx pre post dj
    (.shortCircuit v) (.ok v) Bpre P hsplit hpre hj hpost (fun k ctx' log => rfl)

/-- Concrete run for C3: on a field declared `@a @stop @b` where `stop`
short-circuits with `"X"`, only `b` and `stop` run — `a` and the base
resolver are absent from the log — and the value is `"X"`. -/
theorem short_circuit_suppresses_inner_handlers_and_base_witness :
    ∃ r, createFieldExecutionResolver exDefault stopField exResolverMap exSchema = .ok r ∧
      (r 0 []).2.map Invocation.name = ["b", "stop"] ∧
      (r 0 []).1 = Except.ok "X" := by
  obtain ⟨r, h1, h2, h3⟩ := short_circuit_suppresses_inner_handlers_and_base exDefault
    stopField exResolverMap exSchema 0 [⟨"a", []⟩] [⟨"b", []⟩] ⟨"stop", []⟩ "X"
    (fun _ => Behavior.callThen Except.ok) (fun _ => Except.ok) rfl
    (by intro d hd; fin_cases hd; rfl) rfl (by intro d hd; fin_cases hd; rfl)
  exact ⟨r, h1, by rw [h2]; rfl, by rw [h3]; rfl⟩

/-- C4: if a directive handler throws (or the base resolver does, with every
handler outside the failure calling through), no handler that has not already
run is invoked — the log stops at the failing point — and the error reaches
the caller of the composed resolver as exactly the thrown value. -/
theorem handler_error_propagates_unchanged (dflt : Resolver E V Ctx)
    (field : Field E V Ctx) (rm : ResolverMap E V) (schema : SchemaDirectives)
    (bn : String) (fb : Ctx → Except E V) (ctx : Ctx)
    (pre post : List DirectiveNode) (dj : DirectiveNode) (e : E)
    (Bpre : DirectiveNode → Behavior E V) (P : DirectiveNode → V → Except E V)
    (hbase : field.resolve = some (instrumentedResolver bn fb))
    (hpost : ∀ d ∈ post, resolvesTo rm schema .FIELD_DEFINITION d (.callThen (P d)))
    (hfail :
      (filterCustomDirectives field.astNodeDirectives = pre ++ dj :: post ∧
        (∀ d ∈ pre, resolvesTo rm schema .FIELD_DEFINITION d (Bpre d)) ∧
        resolvesTo rm schema .FIELD_DEFINITION dj (.throwErr e)) ∨
      (filterCustomDirectives field.astNodeDirectives = post ∧ fb ctx = .error e)) :
    ∃ r, createFieldExecutionResolver dflt field rm schema = .ok r ∧
      (r ctx []).1 = .error e ∧
      ((r ctx []).2.map Invocation.name =
          (post.map DirectiveNode.name).reverse ++ [dj.name] ∨
        (r ctx []).2.map Invocation.name =
          (post.map DirectiveNode.name).reverse ++ [bn]) := by
  rcases hfail with ⟨hsplit, hpre, hj⟩ | ⟨hall, hbe⟩
  · obtain ⟨r, h1, h2, h3⟩ := createFieldExecutionResolver_split_run dflt field rm schema ctx
      pre post dj (.throwErr e) (.error e) Bpre P hsplit hpre hj hpost
      (fun k ctx' log => rfl)
    refine ⟨r, h1, ?_, Or.inl h2⟩
    rw [h3, applyPosts_error]
  · have hB : ∀ d ∈ filterCustomDirectives field.astNodeDirectives,
        resolvesTo rm schema .FIELD_DEFINITION d (Behavior.callThen (P d)) := by
      intro d hd
      rw [hall] at hd
      exact hpost d hd
    have hchain := createFieldExecutionResolver_ok_chain dflt field rm schema
      (fun d => .callThen (P d)) hB
    rw [hall, getFieldResolver_some hbase] at hchain
    have hrc := composeChain_callThen_instrumented
      (post.map (fun d => (d.name, Behavior.callThen (P d)))) (post.map P)
      (by simp [List.map_map, Function.comp_def]) bn fb ctx
    refine ⟨_, hchain, ?_, Or.inr ?_⟩
    · rw [hrc]
      show applyPosts (post.map P) (fb ctx) = _
      rw [hbe, applyPosts_error]
    · rw [hrc]
      simp [List.map_map, List.map_reverse, Function.comp_def]

/-- Concrete run for C4: on a field declared `@a @boom @b` where `boom`
throws `"boom"`, only `b` and `boom` run and the chain's outcome is exactly
the thrown error. -/
theorem handler_error_propagates_unchanged_witness :
    ∃ r, createFieldExecutionResolver exDefault boomField exResolverMap exSchema = .ok r ∧
      (r 0 []).1 = Except.error "boom" ∧
      ((r 0 []).2.map Invocation.name = ["b", "boom"] ∨
        (r 0 []).2.map Invocation.name = ["b", "base"]) := by
  obtain ⟨r, h1, h2, h3⟩ := handler_error_propagates_unchanged exDefault boomField
    exResolverMap exSchema "base" (fun _ => Except.ok "v") 0 [⟨"a", []⟩] [⟨"b", []⟩]
    ⟨"boom", []⟩ "boom" (fun _ => Behavior.callThen Except.ok) (fun _ => Except.ok) rfl
    (by intro d hd; fin_cases hd; rfl)
    (Or.inl ⟨rfl, by intro d hd; fin_cases hd; rfl, rfl⟩)
  refine ⟨r, h1, h2, ?_⟩
  rcases h3 with h3 | h3
  · exact Or.inl (by rw [h3]; rfl)
  · exact Or.inr (by rw [h3]; rfl)

/-- C5: `getDirectiveInfo` validates a directive usage as a cascade: no
declaration in the schema yields `undeclaredDirective`; a declaration whose
allowed locations do not include the attachment location yields
`invalidDirectiveLocation`; a missing handler registration yields
`missingDirectiveHandler`; otherwise it yields the registered handler with
the directive's resolved arguments. -/
theorem directive_discovery_validation_cascade (d : DirectiveNode) (rm : ResolverMap E V)
    (schema : SchemaDirectives) (loc : DirectiveLocation) :
    (getDirective schema d.name = none →
      getDirectiveInfo d rm schema loc = .error (.undeclaredDirective d.name)) ∧
    (∀ decl, getDirective schema d.name = some decl →
      decl.locations.contains loc = false →
      getDirectiveInfo d rm schema loc = .error (.invalidDirectiveLocation d.name loc)) ∧
    (∀ decl, getDirective schema d.name = some decl →
      decl.locations.contains loc = true →
      lookupHandler rm d.name = none →
      getDirectiveInfo d rm schema loc = .error (.missingDirectiveHandler d.name)) ∧
    (∀ decl h, getDirective schema d.name = some decl →
      decl.locations.contains loc = true →
      lookupHandler rm d.name = some h →
      getDirectiveInfo d rm schema loc = .ok ⟨getDirectiveValues decl d, h⟩) := by
  refine ⟨?_, ?_, ?_, ?_⟩
  · intro h; simp [getDirectiveInfo, h]
  · intro decl h1 h2
    have h2' : loc ∉ decl.locations := by simpa using h2
    simp [getDirectiveInfo, h1, h2']
  · intro decl h1 h2 h3
    have h2' : loc ∈ decl.locations := by simpa using h2
    simp [getDirectiveInfo, h1, h2', h3]
  · intro decl h h1 h2 h3
    have h2' : loc ∈ decl.locations := by simpa using h2
    simp [getDirectiveInfo, h1, h2', h3]

/-- Concrete instances of C5's cascade: an undeclared directive, a
wrongly-located one, a declared one without a handler, and a successful
discovery. -/
theorem directive_discovery_validation_cascade_witness :
    getDirectiveInfo ⟨"nope", []⟩ exResolverMap exSchema .FIELD =
        .error (.undeclaredDirective "nope") ∧
    getDirectiveInfo ⟨"a", []⟩ exResolverMap exSchema .FIELD =
        .error (.invalidDirectiveLocation "a" .FIELD) ∧
    getDirectiveInfo ⟨"nohandler", []⟩ exResolverMap exSchema .FIELD_DEFINITION =
        .error (.missingDirectiveHandler "nohandler") ∧
    getDirectiveInfo ⟨"a", []⟩ exResolverMap exSchema .FIELD_DEFINITION =
        .ok ⟨[], fun _ => Behavior.callThen Except.ok⟩ := by
  refine ⟨?_, ?_, ?_, ?_⟩
  · exact (directive_discovery_validation_cascade ⟨"nope", []⟩ exResolverMap exSchema
      .FIELD).1 rfl
  · exact (directive_discovery_validation_cascade ⟨"a", []⟩ exResolverMap exSchema
      .FIELD).2.1 ⟨"a", [.FIELD_DEFINITION]⟩ rfl rfl
  · exact (directive_discovery_validation_cascade ⟨"nohandler", []⟩ exResolverMap exSchema
      .FIELD_DEFINITION).2.2.1 ⟨"nohandler", [.FIELD_DEFINITION]⟩ rfl rfl rfl
  · exact (directive_discovery_validation_cascade ⟨"a", []⟩ exResolverMap exSchema
      .FIELD_DEFINITION).2.2.2 ⟨"a", [.FIELD_DEFINITION]⟩
      (fun _ => Behavior.callThen Except.ok) rfl rfl rfl

/-- C6: a discovery failure surfaces while the chain is being composed, in
the outer error layer — before any handler or base resolver could run.  A
declaration-site failure on any field aborts the whole schema wiring loop; a
usage-site failure on the queried field node aborts that single query's
composition (the wiring having succeeded). -/
theorem discovery_failure_aborts_before_any_handler (dflt : Resolver E V Ctx)
    (fields : List (Field E V Ctx)) (field : Field E V Ctx) (rm : ResolverMap E V)
    (schema : SchemaDirectives) (node : FieldNode) (rest : List FieldNode)
    (q : List FieldNode → Except DirectiveError (Resolver E V Ctx)) :
    ((field ∈ fields ∧ ∃ e, createFieldExecutionResolver dflt field rm schema = .error e) →
      ∃ e', addDirectiveResolveFunctionsToSchema dflt rm schema fields = .error e') ∧
    ((addDirectiveResolversToField dflt field rm schema = .ok q ∧
      ∃ d ∈ filterCustomDirectives node.directives,
        ∃ e, getDirectiveInfo d rm schema .FIELD = .error e) →
      ∃ e', q (node :: rest) = .error e') := by
  constructor
  · rintro ⟨hmem, e, hexec⟩
    have hfield : ∃ e0, addDirectiveResolversToField dflt field rm schema = .error e0 :=
      ⟨e, by simp [addDirectiveResolversToField, hexec]⟩
    clear hexec
    induction fields with
    | nil => exact absurd hmem (List.not_mem_nil field)
    | cons f fs ih =>
        rcases List.mem_cons.mp hmem with rfl | hmem'
        · obtain ⟨e0, he0⟩ := hfield
          exact ⟨e0, by simp [addDirectiveResolveFunctionsToSchema, he0]⟩
        · cases haf : addDirectiveResolversToField dflt f rm schema with
          | error e0 =>
              exact ⟨e0, by simp [addDirectiveResolveFunctionsToSchema, haf]⟩
          | ok w =>
              obtain ⟨e1, he1⟩ := ih hmem'
              exact ⟨e1, by simp [addDirectiveResolveFunctionsToSchema, haf, he1]⟩
  · rintro ⟨hq, d, hd, e, herr⟩
    cases hexec : createFieldExecutionResolver dflt field rm schema with
    | error e0 => simp [addDirectiveResolversToField, hexec] at hq
    | ok execR =>
        simp only [addDirectiveResolversToField, hexec] at hq
        injection hq with hq
        subst hq
        have hne : filterCustomDirectives node.directives ≠ [] :=
          List.ne_nil_of_mem hd
        unfold createFieldResolver
        simp only [List.headD_cons]
        rw [if_neg (by simpa [List.isEmpty_iff] using hne)]
        exact directiveFold_error rm schema .FIELD (filterCustomDirectives node.directives)
          ⟨d, hd, e, herr⟩ _

/-- Concrete instances of C6: wiring a schema containing a field declared
with the undeclared `@nope` fails, and a query whose usage site carries
`@nope` fails at composition on an otherwise healthy field. -/
theorem discovery_failure_aborts_before_any_handler_witness :
    (∃ e', addDirectiveResolveFunctionsToSchema exDefault exResolverMap exSchema [nopeField] =
      .error e') ∧
    (∃ q, addDirectiveResolversToField exDefault exField exResolverMap exSchema = .ok q ∧
      ∃ e', q [nopeNode] = .error e') := by
  constructor
  · exact (discovery_failure_aborts_before_any_handler exDefault [nopeField] nopeField
      exResolverMap exSchema nopeNode [] (fun _ => .error (.undeclaredDirective "nope"))).1
      ⟨by simp, .undeclaredDirective "nope", rfl⟩
  · refine ⟨_, rfl, ?_⟩
    exact (discovery_failure_aborts_before_any_handler exDefault [] exField
      exResolverMap exSchema nopeNode [] _).2
      ⟨rfl, ⟨"nope", []⟩, by decide, .undeclaredDirective "nope", rfl⟩

/-- A successful declaration-site composition preserves context-faithfulness
of the field's resolver. -/
theorem ctxFaithful_createFieldExecutionResolver (dflt : Resolver E V Ctx)
    (field : Field E V Ctx) (rm : ResolverMap E V) (schema : SchemaDirectives)
    (r : Resolver E V Ctx) (hfield : CtxFaithful (getFieldResolver dflt field))
    (h : createFieldExecutionResolver dflt field rm schema = .ok r) : CtxFaithful r := by
  unfold createFieldExecutionResolver at h
  by_cases hd : (filterCustomDirectives field.astNodeDirectives).isEmpty
  · rw [if_pos hd] at h
    injection h with h
    exact h ▸ hfield
  · rw [if_neg hd] at h
    exact ctxFaithful_directiveFold rm schema _ _ _ r hfield h

/-- A successful usage-site composition preserves context-faithfulness of the
field's captured resolver. -/
theorem ctxFaithful_createFieldResolver (dflt : Resolver E V Ctx)
    (field : Field E V Ctx) (rm : ResolverMap E V) (schema : SchemaDirectives)
    (nodes : List FieldNode) (r : Resolver E V Ctx)
    (hfield : CtxFaithful (getFieldResolver dflt field))
    (h : createFieldResolver dflt field rm schema nodes = .ok r) : CtxFaithful r := by
  unfold createFieldResolver at h
  by_cases hd : (filterCustomDirectives (nodes.headD ⟨[]⟩).directives).isEmpty
  · rw [if_pos hd] at h
    injection h with h
    exact h ▸ hfield
  · rw [if_neg hd] at h
    exact ctxFaithful_directiveFold rm schema _ _ _ r hfield h

/-- C7: on every invocation of the installed two-tier resolver, every
directive handler and the base resolver receive exactly the context value the
caller supplied — the core never replaces it: every record of the invocation
log carries the caller's context. -/
theorem shared_context_passed_unchanged (dflt : Resolver E V Ctx) (field : Field E V Ctx)
    (rm : ResolverMap E V) (schema : SchemaDirectives) (node : FieldNode)
    (rest : List FieldNode)
    (q : List FieldNode → Except DirectiveError (Resolver E V Ctx)) (r : Resolver E V Ctx)
    (hfield : CtxFaithful (getFieldResolver dflt field))
    (hq : addDirectiveResolversToField dflt field rm schema = .ok q)
    (hr : q (node :: rest) = .ok r) :
    ∀ ctx, ∀ inv ∈ (r ctx []).2, inv.ctx = ctx := by
  cases hexec : createFieldExecutionResolver dflt field rm schema with
  | error e => simp [addDirectiveResolversToField, hexec] at hq
  | ok execR =>
      simp only [addDirectiveResolversToField, hexec] at hq
      injection hq with hq
      subst hq
      have hexecF : CtxFaithful execR :=
        ctxFaithful_createFieldExecutionResolver dflt field rm schema execR hfield hexec
      have hfield2 : CtxFaithful
          (getFieldResolver dflt (⟨some execR, field.astNodeDirectives⟩ : Field E V Ctx)) := by
        rw [getFieldResolver_some rfl]
        exact hexecF
      have hrF : CtxFaithful r :=
        ctxFaithful_createFieldResolver dflt _ rm schema (node :: rest) r hfield2 hr
      intro ctx inv hinv
      obtain ⟨ext, hlog, hext⟩ := hrF ctx []
      rw [List.nil_append] at hlog
      rw [hlog] at hinv
      exact hext inv hinv

/-- Concrete run for C7: on the scenario chain, every logged invocation
received the caller's context value `7`. -/
theorem shared_context_passed_unchanged_witness :
    ∃ q r, addDirectiveResolversToField exDefault secretField exResolverMap exSchema = .ok q ∧
      q [upperNode] = .ok r ∧ ∀ inv ∈ (r 7 []).2, inv.ctx = 7 := by
  have hBd : ∀ d ∈ filterCustomDirectives secretField.astNodeDirectives,
      resolvesTo exResolverMap exSchema DirectiveLocation.FIELD_DEFINITION d
        (Behavior.callThen (Except.ok)) := by
    have hds : filterCustomDirectives secretField.astNodeDirectives =
        [⟨"whatever", []⟩, ⟨"role", [("role", "ADMIN")]⟩] := rfl
    rw [hds]
    intro d hd
    fin_cases hd <;> rfl
  have hBu : ∀ d ∈ filterCustomDirectives upperNode.directives,
      resolvesTo exResolverMap exSchema DirectiveLocation.FIELD d
        (Behavior.callThen (fun v => Except.ok (toUpperString v))) := by
    have hds : filterCustomDirectives upperNode.directives = [⟨"upper", []⟩] := rfl
    rw [hds]
    intro d hd
    fin_cases hd; rfl
  have hfield : CtxFaithful (getFieldResolver exDefault secretField) := by
    rw [getFieldResolver_some rfl]
    exact ctxFaithful_instrumentedResolver "base" (fun _ => Except.ok "123456789abcd")
  obtain ⟨q, hq, hrun⟩ := addDirectiveResolversToField_ok_chain exDefault secretField
    exResolverMap exSchema upperNode [] (fun _ => Behavior.callThen Except.ok)
    (fun _ => Behavior.callThen (fun v => Except.ok (toUpperString v))) hBd hBu
  refine ⟨q, _, hq, hrun, ?_⟩
  intro inv hinv
  exact shared_context_passed_unchanged exDefault secretField exResolverMap exSchema
    upperNode [] q _ hfield hq hrun 7 inv hinv

/-- Built-in directives never survive the filter. -/
theorem filterCustomDirectives_eq_nil : ∀ {ds : List DirectiveNode},
    (∀ d ∈ ds, d.name ∈ BUILT_IN_DIRECTIVES) → filterCustomDirectives ds = []
  | [], _ => rfl
  | d :: ds, h => by
      have hd : (!(BUILT_IN_DIRECTIVES.contains d.name)) = false := by
        have hmem := h d (by simp)
        simp [hmem]
      have hrest : filterCustomDirectives ds = [] :=
        filterCustomDirectives_eq_nil (fun d' hd' => h d' (by simp [hd']))
      show List.filter _ (d :: ds) = []
      rw [List.filter_cons, hd]
      simp only [Bool.false_eq_true, if_false]
      exact hrest

/-- C9: built-in directives (`skip`, `include`, `deprecated`) are filtered
out at both sites before composition: a field (or usage node) carrying only
built-ins composes to exactly what the directive-free field composes to — the
field's own resolver, with no interception and no validation or handler
lookup (the directive table and declarations are arbitrary, even empty). -/
theorem built_in_directives_are_ignored (dflt : Resolver E V Ctx) (field : Field E V Ctx)
    (rm : ResolverMap E V) (schema : SchemaDirectives) (node : FieldNode)
    (rest : List FieldNode)
    (hdecl : ∀ d ∈ field.astNodeDirectives, d.name ∈ BUILT_IN_DIRECTIVES)
    (husage : ∀ d ∈ node.directives, d.name ∈ BUILT_IN_DIRECTIVES) :
    createFieldExecutionResolver dflt field rm schema =
        createFieldExecutionResolver dflt ⟨field.resolve, []⟩ rm schema ∧
    createFieldExecutionResolver dflt field rm schema = .ok (getFieldResolver dflt field) ∧
    createFieldResolver dflt field rm schema (node :: rest) =
        createFieldResolver dflt field rm schema (⟨[]⟩ :: rest) ∧
    createFieldResolver dflt field rm schema (node :: rest) =
        .ok (getFieldResolver dflt field) := by
  have h1 : filterCustomDirectives field.astNodeDirectives = [] :=
    filterCustomDirectives_eq_nil hdecl
  have h2 : filterCustomDirectives node.directives = [] :=
    filterCustomDirectives_eq_nil husage
  refine ⟨?_, ?_, ?_, ?_⟩
  · unfold createFieldExecutionResolver
    rw [h1]
    rfl
  · unfold createFieldExecutionResolver
    rw [h1]
    rfl
  · unfold createFieldResolver
    simp only [List.headD_cons]
    rw [h2]
    rfl
  · unfold createFieldResolver
    simp only [List.headD_cons]
    rw [h2]
    rfl

/-- Concrete run for C9: a field carrying only `@deprecated @include`
composes, against an empty schema and empty directive table, to its own
resolver — identical to the directive-free composition. -/
theorem built_in_directives_are_ignored_witness :
    createFieldExecutionResolver exDefault builtinField [] [] =
        createFieldExecutionResolver exDefault ⟨builtinField.resolve, []⟩ [] [] ∧
    createFieldExecutionResolver exDefault builtinField [] [] =
        .ok (getFieldResolver exDefault builtinField) ∧
    createFieldResolver exDefault builtinField [] []
        (⟨[⟨"skip", []⟩]⟩ :: []) =
        createFieldResolver exDefault builtinField [] [] (⟨[]⟩ :: []) ∧
    createFieldResolver exDefault builtinField [] [] (⟨[⟨"skip", []⟩]⟩ :: []) =
        .ok (getFieldResolver exDefault builtinField) := by
  exact built_in_directives_are_ignored exDefault builtinField [] [] ⟨[⟨"skip", []⟩]⟩ []
    (by intro d hd; fin_cases hd <;> simp [BUILT_IN_DIRECTIVES])
    (by intro d hd; fin_cases hd; simp [BUILT_IN_DIRECTIVES])

/-- C10: the usage-site composer reads directives exclusively from the first
field node of `info.fieldNodes`: the result is literally independent of the
later nodes, so their directives are neither validated nor composed. -/
theorem usage_discovery_reads_only_first_field_node (dflt : Resolver E V Ctx)
    (field : Field E V Ctx) (rm : ResolverMap E V) (schema : SchemaDirectives)
    (node : FieldNode) (rest rest' : List FieldNode) :
    createFieldResolver dflt field rm schema (node :: rest) =
      createFieldResolver dflt field rm schema (node :: rest') := rfl

/-- C8 counterexample: the claim promises that a resolver-table entry whose
type name does not correspond to a schema type is ignored without error, but
wiring such an entry throws (`schema.getType` yields `undefined` and the
unconditional `type.getFields()` call raises a `TypeError`). -/
theorem unused_registration_wiring_counterexample :
    buildSchemaWithResolvers exSchemaModel [("Nope", [("x", 0)])] =
      .error (.typeErrorUndefined "Nope") := rfl

/-- Assignments under field names foreign to the field list leave it
unchanged. -/
theorem installFieldResolvers_unused {β : Type} :
    ∀ (fieldMap : List (String × β)) (fields : List (SchemaField β)),
      (∀ entry ∈ fieldMap, ∀ fld ∈ fields, fld.name ≠ entry.1) →
      installFieldResolvers fields fieldMap = fields
  | [], fields, _ => rfl
  | entry :: restMap, fields, h => by
      have hstep : fields.map
          (fun f => if f.name == entry.1 then (⟨f.name, some entry.2⟩ : SchemaField β) else f) =
          fields := by
        have hpt : ∀ fld ∈ fields,
            (if fld.name == entry.1 then (⟨fld.name, some entry.2⟩ : SchemaField β) else fld) =
              id fld := by
          intro fld hfld
          have hne := h entry (by simp) fld hfld
          simp [hne]
        rw [List.map_congr_left hpt, List.map_id]
      show installFieldResolvers
        (fields.map (fun f => if f.name == entry.1 then ⟨f.name, some entry.2⟩ else f))
        restMap = fields
      rw [hstep]
      exact installFieldResolvers_unused restMap fields
        (fun entry' hentry' => h entry' (by simp [hentry']))

/-- Installing a field map whose field names are foreign to every type of the
target name leaves the schema unchanged. -/
theorem installTypeResolvers_unused {β : Type} (schema : SchemaModel β) (typeName : String)
    (fieldMap : List (String × β))
    (h : ∀ ty ∈ schema, ty.name = typeName →
      ∀ entry ∈ fieldMap, ∀ fld ∈ ty.fields, fld.name ≠ entry.1) :
    installTypeResolvers schema typeName fieldMap = schema := by
  unfold installTypeResolvers
  have hpt : ∀ ty ∈ schema, (if ty.name == typeName then
      (⟨ty.name, ty.hasFields, installFieldResolvers ty.fields fieldMap⟩ : SchemaType β)
      else ty) = id ty := by
    intro ty hty
    by_cases heq : ty.name = typeName
    · have hbeq : (ty.name == typeName) = true := by simp [heq]
      rw [if_pos hbeq, installFieldResolvers_unused fieldMap ty.fields (h ty hty heq)]
      rfl
    · have hne : (ty.name == typeName) = false := by simp [heq]
      simp [hne]
  rw [List.map_congr_left hpt, List.map_id]

/-- C8 amended: registration is idempotent-overwrite — for the same
`(typeName, fieldName)` key the last registered function wins — and a
resolver-table entry naming an existing fields-bearing type under field names
that are not fields of it is silently ignored: wiring completes with the
schema unchanged.  (An entry naming a type absent from the schema, or one
without `getFields`, instead makes wiring throw a `TypeError`, as the
counterexample shows.) -/
theorem resolver_registration_overwrites_and_unused_field_entries_are_ignored {β : Type}
    (m : List ((String × String) × β)) (typeName fieldName : String) (f g : β)
    (schema : SchemaModel β) (t : SchemaType β) (fieldMap : List (String × β))
    (ht : getType schema typeName = some t) (hf : t.hasFields = true)
    (hunused : ∀ ty ∈ schema, ty.name = typeName →
      ∀ entry ∈ fieldMap, ∀ fld ∈ ty.fields, fld.name ≠ entry.1) :
    lookupRegistered (registerResolver (registerResolver m typeName fieldName f)
        typeName fieldName g) typeName fieldName = some g ∧
    buildSchemaWithResolvers schema [(typeName, fieldMap)] = .ok schema := by
  constructor
  · simp [lookupRegistered, registerResolver]
  · show ((match getType schema typeName with
      | none => Except.error (WiringError.typeErrorUndefined typeName)
      | some t =>
          if t.hasFields then
            buildSchemaWithResolvers (installTypeResolvers schema typeName fieldMap) []
          else Except.error (WiringError.typeErrorNoGetFields typeName)) :
        Except WiringError (SchemaModel β)) = .ok schema
    rw [ht]
    show (if t.hasFields = true then
        buildSchemaWithResolvers (installTypeResolvers schema typeName fieldMap) []
      else Except.error (WiringError.typeErrorNoGetFields typeName)) = .ok schema
    rw [if_pos hf]
    show Except.ok (installTypeResolvers schema typeName fieldMap) = _
    rw [installTypeResolvers_unused schema typeName fieldMap hunused]

/-- Concrete instance of C8 as amended: re-registering under the key
`(Person, name)` keeps the last function, and an entry for the unknown field
`Person.nosuch` wires without error and without effect. -/
theorem resolver_registration_overwrites_and_unused_field_entries_are_ignored_witness :
    lookupRegistered (registerResolver (registerResolver ([] : List ((String × String) × Nat))
        "Person" "name" 1) "Person" "name" 2) "Person" "name" = some 2 ∧
    buildSchemaWithResolvers exSchemaModel [("Person", [("nosuch", 5)])] =
      .ok exSchemaModel := by
  exact resolver_registration_overwrites_and_unused_field_entries_are_ignored [] "Person"
    "name" 1 2 exSchemaModel ⟨"Person", true, [⟨"name", none⟩]⟩ [("nosuch", 5)] rfl rfl
    (by decide)

end GraphQLProcessor
